import Mathlib

set_option maxRecDepth 100000

/-!
Verification of the squibble SQLite schema-migration assistant.

This file gives a shallow embedding, in Lean 4, of the core logic of the
squibble package: schema canonicalization and fingerprinting
(`readSchema` / `schemaDigest` / `SQLDigest` / `DBDigest`), the
consistency checker (`Schema.Check`), the migration engine
(`Schema.Apply`), the validator (`Validate` / `diffSchema`) and the
history codec (`compress` / `uncompress`).  External collaborators (the
SQLite engine, the zstd codec, the mds diff library, the SHA-256 hash)
are modelled by executable Lean definitions of their documented
behavior; everything translated from the repository's own Go source
keeps the source's structure and names.
-/

namespace Squibble

/-! ## SHA-256 (model of Go crypto/sha256 over byte lists)

A byte is a `Nat` below 256; words are `Nat` below 2^32.  This is a
direct executable implementation of FIPS 180-4 SHA-256, used by the
fingerprint engine. -/

def w32 (n : Nat) : Nat := n % 4294967296

def rotr32 (n x : Nat) : Nat := w32 ((x >>> n) ||| (x <<< (32 - n)))

def sha256K : List Nat :=
  [1116352408, 1899447441, 3049323471, 3921009573, 961987163, 1508970993,
   2453635748, 2870763221, 3624381080, 310598401, 607225278, 1426881987,
   1925078388, 2162078206, 2614888103, 3248222580, 3835390401, 4022224774,
   264347078, 604807628, 770255983, 1249150122, 1555081692, 1996064986,
   2554220882, 2821834349, 2952996808, 3210313671, 3336571891, 3584528711,
   113926993, 338241895, 666307205, 773529912, 1294757372, 1396182291,
   1695183700, 1986661051, 2177026350, 2456956037, 2730485921, 2820302411,
   3259730800, 3345764771, 3516065817, 3600352804, 4094571909, 275423344,
   430227734, 506948616, 659060556, 883997877, 958139571, 1322822218,
   1537002063, 1747873779, 1955562222, 2024104815, 2227730452, 2361852424,
   2428436474, 2756734187, 3204031479, 3329325298]

def sha256H0 : List Nat :=
  [1779033703, 3144134277, 1013904242, 2773480762,
   1359893119, 2600822924, 528734635, 1541459225]

/-- Pad a message (list of bytes) per SHA-256: append 0x80, zeros, and the
64-bit big-endian bit length, up to a multiple of 64 bytes. -/
def sha256Pad (msg : List Nat) : List Nat :=
  let len := msg.length
  let padLen := (55 + 64 - len % 64) % 64 + 1
  let bitLen := len * 8
  msg ++ 128 :: List.replicate (padLen - 1) 0 ++
    [w32 (bitLen >>> 56) % 256, (bitLen >>> 48) % 256, (bitLen >>> 40) % 256,
     (bitLen >>> 32) % 256, (bitLen >>> 24) % 256, (bitLen >>> 16) % 256,
     (bitLen >>> 8) % 256, bitLen % 256]

/-- Group a padded byte list into 32-bit big-endian words. -/
def bytesToWords : List Nat → List Nat
  | a :: b :: c :: d :: rest => (((a * 256 + b) * 256 + c) * 256 + d) :: bytesToWords rest
  | _ => []

/-- Extend 16 message words to the 64-word schedule. -/
def sha256Extend (w : List Nat) : Nat → List Nat
  | 0 => w
  | n + 1 =>
    let w' := sha256Extend w n
    let i := w'.length
    let g := fun (j : Nat) => w'.getD j 0
    let x := g (i - 15)
    let y := g (i - 2)
    let s0 := (rotr32 7 x) ^^^ (rotr32 18 x) ^^^ (x >>> 3)
    let s1 := (rotr32 17 y) ^^^ (rotr32 19 y) ^^^ (y >>> 10)
    w' ++ [w32 (g (i - 16) + s0 + g (i - 7) + s1)]

/-- One round of the SHA-256 compression function. -/
def sha256Round (st : List Nat) (kw : Nat) : List Nat :=
  match st with
  | [a, b, c, d, e, f, g, h] =>
    let s1 := (rotr32 6 e) ^^^ (rotr32 11 e) ^^^ (rotr32 25 e)
    let ch := (e &&& f) ^^^ ((4294967295 - e) &&& g)
    let t1 := w32 (h + s1 + ch + kw)
    let s0 := (rotr32 2 a) ^^^ (rotr32 13 a) ^^^ (rotr32 22 a)
    let mj := (a &&& b) ^^^ (a &&& c) ^^^ (b &&& c)
    let t2 := w32 (s0 + mj)
    [w32 (t1 + t2), a, b, c, w32 (d + t1), e, f, g]
  | other => other

/-- Process one 16-word block, updating the running hash state. -/
def sha256Block (h : List Nat) (blockWords : List Nat) : List Nat :=
  let w := sha256Extend blockWords 48
  let st := (w.zip sha256K |>.take 64).foldl
    (fun st p => sha256Round st (w32 (p.1 + p.2))) h
  (h.zip st).map (fun p => w32 (p.1 + p.2))

/-- Process the word stream block by block; `fuel` counts the remaining
16-word blocks so the recursion is structural. -/
def sha256Blocks (h : List Nat) (ws : List Nat) : Nat → List Nat
  | 0 => h
  | fuel + 1 => sha256Blocks (sha256Block h (ws.take 16)) (ws.drop 16) fuel

def hexDigit (n : Nat) : Char :=
  if n < 10 then Char.ofNat (48 + n) else Char.ofNat (87 + n % 16)

def natToHex8 (n : Nat) : List Char :=
  [hexDigit (n / 268435456 % 16), hexDigit (n / 16777216 % 16),
   hexDigit (n / 1048576 % 16), hexDigit (n / 65536 % 16),
   hexDigit (n / 4096 % 16), hexDigit (n / 256 % 16),
   hexDigit (n / 16 % 16), hexDigit (n % 16)]

/-- SHA-256 of a byte list, as a lowercase hex string (Go's
`hex.EncodeToString(h.Sum(nil))`). -/
def sha256Hex (msg : List Nat) : String :=
  let ws := bytesToWords (sha256Pad msg)
  let hs := sha256Blocks sha256H0 ws (ws.length / 16)
  ⟨(hs.map natToHex8).flatten⟩

/-! ## UTF-8 and Go string helpers

Go strings are byte sequences; the package only ever hashes and
transforms text, so we model Go strings as Lean `String` and convert to
bytes with a standard UTF-8 encoder where the Go code hashes them. -/

def utf8EncodeCharM (c : Char) : List Nat :=
  let n := c.toNat
  if n < 128 then [n]
  else if n < 2048 then [192 ||| (n >>> 6), 128 ||| (n &&& 63)]
  else if n < 65536 then
    [224 ||| (n >>> 12), 128 ||| ((n >>> 6) &&& 63), 128 ||| (n &&& 63)]
  else
    [240 ||| (n >>> 18), 128 ||| ((n >>> 12) &&& 63),
     128 ||| ((n >>> 6) &&& 63), 128 ||| (n &&& 63)]

def utf8Bytes (s : String) : List Nat := (s.data.map utf8EncodeCharM).flatten

/-- Whitespace class of Go's `unicode.IsSpace` restricted to ASCII (the
schema texts the package handles); used by `strings.TrimSpace`. -/
def goIsSpace (c : Char) : Bool :=
  c = ' ' || c = '\t' || c = '\n' || c.toNat = 11 || c.toNat = 12 || c = '\r'

/-- Model of Go `strings.TrimSpace`. -/
def trimSpace (s : String) : String :=
  String.mk (((s.data.dropWhile goIsSpace).reverse.dropWhile goIsSpace).reverse)

/-- Split a character list at newline characters (model of Go
`strings.Split(s, "\n")`; the empty string yields one empty field). -/
def splitNl : List Char → List (List Char)
  | [] => [[]]
  | c :: cs =>
    let r := splitNl cs
    if c = '\n' then [] :: r
    else
      match r with
      | g :: gs => (c :: g) :: gs
      | [] => [[c]]

/-- Modelled from the spec: `mstr.Lines` of the external mds library,
which splits a string into lines at newline characters, dropping the
empty token after a trailing newline, and returns no lines for "". -/
def mstrLines (s : String) : List String :=
  let out := (splitNl s.data).map String.mk
  match out.getLast? with
  | some last => if last = "" then out.dropLast else out
  | none => out

/-- Boolean test that the character list `s` starts with `p` (model of Go
`strings.HasPrefix` over the code points involved here). -/
def listStarts [DecidableEq α] : List α → List α → Bool
  | _, [] => true
  | [], _ :: _ => false
  | a :: as, b :: bs => a = b && listStarts as bs

def strStarts (s p : String) : Bool := listStarts s.data p.data

/-! ## Comparators (Go cmp.Compare) and sorting (Go slices.SortFunc) -/

def cmpChar (a b : Char) : Ordering :=
  if a.toNat < b.toNat then .lt else if b.toNat < a.toNat then .gt else .eq

def cmpCharList : List Char → List Char → Ordering
  | [], [] => .eq
  | [], _ :: _ => .lt
  | _ :: _, [] => .gt
  | a :: as, b :: bs =>
    match cmpChar a b with
    | .eq => cmpCharList as bs
    | v => v

/-- Model of Go `cmp.Compare` on strings (lexicographic; UTF-8 byte order
agrees with code-point order). -/
def cmpStr (a b : String) : Ordering := cmpCharList a.data b.data

/-- Insert into a list sorted by a comparator, before the first strictly
greater element. -/
def insertBy (cmp : α → α → Ordering) (a : α) : List α → List α
  | [] => [a]
  | b :: bs => if cmp a b = Ordering.lt then a :: b :: bs else b :: insertBy cmp a bs

/-- Comparison sort used to model Go `slices.SortFunc` (the claims only
depend on the output being sorted by the comparator). -/
def sortBy (cmp : α → α → Ordering) : List α → List α
  | [] => []
  | a :: as => insertBy cmp a (sortBy cmp as)

/-! ## Data model (validate.go): canonical rows and columns -/

/-- Go struct `schemaCol` (field `Type` is spelled `Typ` here because
`Type` is reserved in Lean; the JSON encoder still emits "Type"). -/
structure schemaCol where
  Name : String
  Typ : String
  NotNull : Bool
  Default : Option String
  PrimaryKey : Bool
  Hidden : Nat
deriving DecidableEq, Repr

/-- Go struct `schemaRow` (authoritative variant, with `Columns`). -/
structure schemaRow where
  Typ : String
  Name : String
  TableName : String
  Columns : List schemaCol
  SQL : String
deriving DecidableEq, Repr

def historyTableName : String := "_schema_history"

/-- Go `compareSchemaRows`: lexicographic on (Type, Name, TableName, SQL). -/
def compareSchemaRows (a b : schemaRow) : Ordering :=
  match cmpStr a.Typ b.Typ with
  | .eq =>
    match cmpStr a.Name b.Name with
    | .eq =>
      match cmpStr a.TableName b.TableName with
      | .eq => cmpStr a.SQL b.SQL
      | v => v
    | v => v
  | v => v

def boolStr (b : Bool) : String := if b then "true" else "false"

/-- The `fmt.Sprintf("%v %v %v %d", ...)` flag string compared by
`compareSchemaCols`. -/
def colFlagString (c : schemaCol) : String :=
  boolStr c.NotNull ++ " " ++ boolStr c.PrimaryKey ++ " " ++
    boolStr c.Default.isSome ++ " " ++ Nat.repr c.Hidden

/-- Go `compareSchemaCols`: by Type, then Name, then the flag string. -/
def compareSchemaCols (a b : schemaCol) : Ordering :=
  match cmpStr a.Typ b.Typ with
  | .eq =>
    match cmpStr a.Name b.Name with
    | .eq => cmpStr (colFlagString a) (colFlagString b)
    | v => v
  | v => v

/-! ## Catalog reader (validate.go readSchema / readColumns)

The engine's catalog is modelled as the list of `sqlite_schema` rows,
each carrying the `PRAGMA table_xinfo` tuples for its object name (the
code only consults them for tables). -/

/-- One `PRAGMA table_xinfo` tuple `(name, type, notnull, dflt_value,
pk, hidden)`. -/
structure RawCol where
  Name : String
  Typ : String
  NotNull : Nat
  Default : Option String
  PrimaryKey : Nat
  Hidden : Nat
deriving DecidableEq, Repr

/-- One `sqlite_schema` row `(type, name, tbl_name, sql)`; `sql` is
nullable. -/
structure RawRow where
  Typ : String
  Name : String
  TableName : String
  SQL : Option String
  Columns : List RawCol
deriving DecidableEq, Repr

/-- ASCII model of Go `strings.ToUpper` (type names in the catalog are
ASCII). -/
def asciiToUpper (s : String) : String := String.mk (s.data.map Char.toUpper)

/-- Go `readColumns`: normalize and sort the column metadata of a table. -/
def readColumns (cols : List RawCol) : List schemaCol :=
  sortBy compareSchemaCols (cols.map fun c =>
    { Name := c.Name
      Typ := asciiToUpper c.Typ
      NotNull := c.NotNull ≠ 0
      Default := c.Default
      PrimaryKey := c.PrimaryKey ≠ 0
      Hidden := c.Hidden })

/-- The per-row body of Go `readSchema`'s scan loop: skip ledger- and
engine-internal objects, read out columns for tables. -/
def readSchemaRow (r : RawRow) : Option schemaRow :=
  if r.TableName = historyTableName || r.TableName = "sqlite_sequence" then none
  else if strStarts r.Name "sqlite_autoindex_" then none
  else some
    { Typ := r.Typ
      Name := r.Name
      TableName := r.TableName
      Columns := if r.Typ = "table" then readColumns r.Columns else []
      SQL := r.SQL.getD "" }

/-- Go `readSchema`: filter, decode and sort the catalog into canonical
rows. -/
def readSchema (cat : List RawRow) : List schemaRow :=
  sortBy compareSchemaRows (cat.filterMap readSchemaRow)

/-! ## SQL text normalization (textcrime.go) -/

/-- Go `cleanLines`: the lines of `s` with leading/trailing whitespace
removed from each. -/
def cleanLines (s : String) : List String := (mstrLines s).map trimSpace

/-- Go `cleanSQL`: the cleaned lines joined by a single space. -/
def cleanSQL (s : String) : String := String.intercalate " " (cleanLines s)

/-! ## JSON serialization (Go encoding/json on []schemaRow)

`json.NewEncoder(h).Encode(sr)` writes the compact JSON encoding of the
slice followed by one newline.  A nil slice encodes as `null`; the
encoder escapes `"`, `\\`, control characters and (HTML escaping being
on by default) `<`, `>`, `&`. -/

def jsonEscapeChar (c : Char) : List Char :=
  if c = '"' then ['\\', '"']
  else if c = '\\' then ['\\', '\\']
  else if c = '\n' then ['\\', 'n']
  else if c = '\r' then ['\\', 'r']
  else if c = '\t' then ['\\', 't']
  else if c.toNat < 32 then
    ['\\', 'u', '0', '0', hexDigit (c.toNat / 16), hexDigit (c.toNat % 16)]
  else if c = '<' then ['\\', 'u', '0', '0', '3', 'c']
  else if c = '>' then ['\\', 'u', '0', '0', '3', 'e']
  else if c = '&' then ['\\', 'u', '0', '0', '2', '6']
  else if c.toNat = 8232 then ['\\', 'u', '2', '0', '2', '8']
  else if c.toNat = 8233 then ['\\', 'u', '2', '0', '2', '9']
  else [c]

def jsonString (s : String) : String :=
  String.mk ('"' :: (s.data.map jsonEscapeChar).flatten ++ ['"'])

def jsonBool (b : Bool) : String := boolStr b

def jsonCol (c : schemaCol) : String :=
  "\x7b\"Name\":" ++ jsonString c.Name ++ ",\"Type\":" ++ jsonString c.Typ ++
    ",\"NotNull\":" ++ jsonBool c.NotNull ++ ",\"Default\":" ++
    (match c.Default with
     | none => "null"
     | some v => jsonString v) ++
    ",\"PrimaryKey\":" ++ jsonBool c.PrimaryKey ++
    ",\"Hidden\":" ++ Nat.repr c.Hidden ++ "\x7d"

def jsonCols (cs : List schemaCol) : String :=
  match cs with
  | [] => "null"
  | _ => "[" ++ String.intercalate "," (cs.map jsonCol) ++ "]"

def jsonRow (r : schemaRow) : String :=
  "\x7b\"Type\":" ++ jsonString r.Typ ++ ",\"Name\":" ++ jsonString r.Name ++
    ",\"TableName\":" ++ jsonString r.TableName ++
    ",\"Columns\":" ++ jsonCols r.Columns ++
    ",\"SQL\":" ++ jsonString r.SQL ++ "\x7d"

def jsonRows (rs : List schemaRow) : String :=
  match rs with
  | [] => "null"
  | _ => "[" ++ String.intercalate "," (rs.map jsonRow) ++ "]"

/-! ## Fingerprint engine (squibble.go schemaDigest / SQLDigest / DBDigest) -/

/-- The in-place rewriting loop at the top of Go `schemaDigest`: table
rows lose their SQL, other rows get it whitespace-normalized. -/
def schemaDigestRows : List schemaRow → List schemaRow
  | [] => []
  | r :: rest =>
    (if r.Typ = "table" then { r with SQL := "" }
     else { r with SQL := cleanSQL r.SQL }) :: schemaDigestRows rest

/-- Go `schemaDigest`, with the post-call contents of its argument slice
made explicit as the second component (the Go function rewrites the
slice in place before hashing it). -/
def schemaDigestGo (sr : List schemaRow) : String × List schemaRow :=
  let sr2 := schemaDigestRows sr
  (sha256Hex (utf8Bytes (jsonRows sr2) ++ [10]), sr2)

def schemaDigest (sr : List schemaRow) : String := (schemaDigestGo sr).1

/-- The engine boundary: executing a SQL schema text on an essentially
empty database yields the catalog rows it creates (or a SQL error).
The SQLite engine itself is out of scope; its semantics is a parameter. -/
def Env : Type := String → Except String (List RawRow)

/-- Go `schemaTextToRows`: execute the text in a disposable in-memory
instance and canonical-read the result. -/
def schemaTextToRows (env : Env) (schema : String) : Except String (List schemaRow) :=
  match env schema with
  | .error e => .error ("compile schema: " ++ e)
  | .ok created => .ok (readSchema created)

/-- Go `SQLDigest`. -/
def SQLDigest (env : Env) (text : String) : Except String String :=
  match schemaTextToRows env text with
  | .error e => .error e
  | .ok sr => .ok (schemaDigest sr)

/-- Go `DBDigest` on a live catalog (the query fault paths are handled
at the call sites in `Apply`). -/
def DBDigest (cat : List RawRow) : String := schemaDigest (readSchema cat)

/-! ## Schema, update rules, consistency checker (squibble.go) -/

/-- Go `UpdateRule`.  The nilness of the Go `Apply` field is tracked by
`hasApply` so that the rule value stays total; `applyFn` transforms the
raw catalog inside the transaction (author-supplied arbitrary SQL). -/
structure UpdateRule where
  Source : String
  Target : String
  hasApply : Bool
  applyFn : List RawRow → Except String (List RawRow)

/-- Go `Schema` (the logger field is out of scope). -/
structure Schema where
  Current : String
  Updates : List UpdateRule

/-- The individual errors accumulated by Go `Schema.Check`, tagged with
the data its format strings interpolate; `i` is the 1-based rule number
printed as `upgrade %d`. -/
inductive CheckError where
  | noCurrentSchema
  | digestFailed (e : String)
  | missingSource (i : Nat)
  | missingTarget (i : Nat)
  | missingApply (i : Nat)
  | badStitch (i : Nat) (want got : String)
  | missingUpgrade (last target : String)
deriving DecidableEq, Repr

/-- The error-accumulating walk inside Go `Schema.Check`: `i` is the
1-based number of the next rule, `last` the previous rule's target (""
initially), `hc` the digest of the current schema. -/
def checkErrs (hc : String) : Nat → String → List UpdateRule → List CheckError
  | _, last, [] =>
    if last ≠ "" ∧ last ≠ hc then [.missingUpgrade last hc] else []
  | i, last, u :: us =>
    (if u.Source = "" then [CheckError.missingSource i] else []) ++
    (if u.Target = "" then [CheckError.missingTarget i] else []) ++
    (if u.hasApply then [] else [CheckError.missingApply i]) ++
    (if last ≠ "" ∧ u.Source ≠ last then [CheckError.badStitch i last u.Source] else []) ++
    checkErrs hc (i + 1) u.Target us

/-- Go `Schema.Check`: empty current schema is an immediate error, then
the digest of the current schema is computed and the rule walk's errors
are joined (`errors.Join` of an empty list is nil, i.e. success). -/
def Check (env : Env) (s : Schema) : Except (List CheckError) Unit :=
  if s.Current = "" then .error [.noCurrentSchema]
  else
    match SQLDigest env s.Current with
    | .error e => .error [.digestFailed e]
    | .ok hc =>
      match checkErrs hc 1 "" s.Updates with
      | [] => .ok ()
      | errs => .error errs

/-- Go `Schema.firstPendingUpdate`: scan the rules from the last one
backward for the first whose Source equals `digest` (so the greatest
matching index wins); `none` models the -1 result. -/
def firstPendingUpdate (us : List UpdateRule) (digest : String) : Option Nat :=
  match us with
  | [] => none
  | u :: rest =>
    match firstPendingUpdate rest digest with
    | some j => some (j + 1)
    | none => if u.Source = digest then some 0 else none

/-! ## Migration engine (squibble.go Schema.Apply)

The transactional connection is modelled by explicit state passing: the
database is its raw catalog plus the history ledger, `Apply` returns the
result together with the post-call database, and every error path
returns the input database unchanged (the deferred rollback).  Transient
I/O failures of the live catalog reads and of the history query are
injected through a fault schedule, so that claims about error
propagation are statable; an empty schedule means fault-free I/O. -/

/-- One ledger row (the wall-clock timestamp is out of scope; rows stay
in insertion order, which is chronological). -/
structure HistoryRow where
  Digest : String
  Schema : String
deriving DecidableEq, Repr

/-- The managed database: the live catalog plus the history ledger. -/
structure DBData where
  cat : List RawRow
  history : List HistoryRow
deriving DecidableEq, Repr

/-- Injected I/O outcomes: one entry per live catalog read performed by
`Apply` (in call order), plus one for the history query.  `none` or an
exhausted list is a successful read. -/
structure Faults where
  schemaReads : List (Option String)
  historyRead : Option String
deriving DecidableEq, Repr

def noFaults : Faults := { schemaReads := [], historyRead := none }

def takeFault : List (Option String) → Option String × List (Option String)
  | [] => (none, [])
  | f :: rest => (f, rest)

/-- One live-catalog read (Go `readSchema(ctx, tx, "main")`), consuming
the next scheduled fault. -/
def readSchemaLive (db : DBData) (fs : List (Option String)) :
    Except String (List schemaRow) × List (Option String) :=
  match takeFault fs with
  | (some e, rest) => (.error e, rest)
  | (none, rest) => (.ok (readSchema db.cat), rest)

/-- Go `schemaIsEmpty`: a read error reports `false`; otherwise the
schema is essentially empty when it has no rows, or only the history
table's row. -/
def schemaIsEmpty (res : Except String (List schemaRow)) : Bool :=
  match res with
  | .error _ => false
  | .ok [] => true
  | .ok [r] => r.Name = historyTableName
  | .ok _ => false

/-- The errors `Schema.Apply` can return, tagged with the data its
format strings interpolate. -/
inductive ApplyError where
  | checkFailed (errs : List CheckError)
  | digestFailed (e : String)
  | historyReadFailed (e : String)
  | unmanagedSchema
  | applySchemaFailed (e : String)
  | noUpdateFound (digest : String)
  | updateFailed (source e : String)
  | confirmReadFailed (e : String)
  | confirmFailed (got want : String)
deriving DecidableEq, Repr

/-- The upgrade loop of `Apply` (stage 3): run each pending rule, then
immediately recompute the database digest and compare it to the rule's
declared target. -/
def runUpdates : List UpdateRule → List RawRow → List (Option String) →
    Except ApplyError (List RawRow × List (Option String))
  | [], cat, fs => .ok (cat, fs)
  | u :: rest, cat, fs =>
    match u.applyFn cat with
    | .error e => .error (.updateFailed u.Source e)
    | .ok cat2 =>
      match takeFault fs with
      | (some e, _) => .error (.confirmReadFailed e)
      | (none, fs2) =>
        let conf := DBDigest cat2
        if conf ≠ u.Target then .error (.confirmFailed conf u.Target)
        else runUpdates rest cat2 fs2

/-- Go `Schema.Apply`.  Executing the current schema text as the
bootstrap appends the catalog rows it creates (`env s.Current`); the
history-table create of stage 1 is invisible to canonical reads and is
left implicit.  Every error path rolls the transaction back, returning
the input database. -/
def Apply (env : Env) (s : Schema) (db : DBData) (faults : Faults) :
    Except ApplyError Unit × DBData :=
  match Check env s with
  | .error errs => (.error (.checkFailed errs), db)
  | .ok () =>
    match SQLDigest env s.Current with
    | .error e => (.error (.digestFailed e), db)
    | .ok curHash =>
      match readSchemaLive db faults.schemaReads with
      | (.error e, _) => (.error (.digestFailed e), db)
      | (.ok mainRows, fs1) =>
        let latestHash := schemaDigest mainRows
        match faults.historyRead with
        | some e => (.error (.historyReadFailed e), db)
        | none =>
          match db.history with
          | [] =>
            -- Case 1: no history recorded yet.
            if latestHash ≠ curHash then
              match readSchemaLive db fs1 with
              | (res, _) =>
                if ¬ schemaIsEmpty res then (.error .unmanagedSchema, db)
                else
                  match env s.Current with
                  | .error e => (.error (.applySchemaFailed e), db)
                  | .ok created =>
                    (.ok (), { cat := db.cat ++ created,
                               history := db.history ++ [⟨curHash, s.Current⟩] })
            else
              (.ok (), { db with history := db.history ++ [⟨curHash, s.Current⟩] })
          | _ :: _ =>
            -- Case 2: the schema is already current.
            if latestHash = curHash then (.ok (), db)
            else
              -- Case 3: apply pending updates.
              match firstPendingUpdate s.Updates latestHash with
              | none => (.error (.noUpdateFound latestHash), db)
              | some i =>
                match runUpdates (s.Updates.drop i) db.cat fs1 with
                | .error e => (.error e, db)
                | .ok (catFinal, _) =>
                  (.ok (), { cat := catFinal,
                             history := db.history ++ [⟨curHash, s.Current⟩] })

/-! ## Differ (textcrime.go) and validator (validate.go)

The edit-script primitive comes from the external mds library; it is
modelled by its documented contract (an empty script exactly when the
inputs are equal, OpReplace pairing equal-length runs, OpEmit runs
producing no diff output).  The unified formatter of the external mdiff
library is modelled the same way.  Everything else follows the source. -/

inductive EditOp where
  | copy
  | replace
  | drop
  | emit
deriving DecidableEq, Repr

structure Edit (α : Type) where
  op : EditOp
  X : List α
  Y : List α
deriving DecidableEq, Repr

/-- Modelled from the spec: `slice.EditScript` of the external mds
library.  The contract the code relies on: the script is empty exactly
when the inputs are equal, and it transforms `as` into `bs` via
replace/drop/copy runs. -/
def editScript [DecidableEq α] (as bs : List α) : List (Edit α) :=
  if as = bs then []
  else if as.length = bs.length then [⟨.replace, as, bs⟩]
  else if as = [] then [⟨.copy, [], bs⟩]
  else if bs = [] then [⟨.drop, as, []⟩]
  else [⟨.drop, as, []⟩, ⟨.copy, [], bs⟩]

/-- Concatenation of a list of strings (the `strings.Builder`
accumulation in the Go differ). -/
def strJoin : List String → String
  | [] => ""
  | s :: rest => s ++ strJoin rest

/-- Go `schemaCol.String`: the human-readable column rendering used in
column diffs. -/
def colString (c : schemaCol) : String :=
  "\"" ++ c.Name ++ "\" " ++ c.Typ ++
    (if c.NotNull then " not null" else " null") ++
    (match c.Default with
     | none => ""
     | some v => " default=" ++ v) ++
    (if c.PrimaryKey then " primary key" else "")

/-- Go `diffColumns` (textcrime.go): renders one line per added,
replaced or removed column; OpEmit runs produce nothing. -/
def diffColumns (dc : List (Edit schemaCol)) : String :=
  strJoin (dc.map fun e =>
    match e.op with
    | .copy => strJoin (e.Y.map fun col => " + add column " ++ colString col ++ "\n")
    | .replace =>
      strJoin ((e.X.zip e.Y).map fun p =>
        " ! replace column " ++ colString p.1 ++ "\n   with " ++ colString p.2 ++ "\n")
    | .drop => strJoin (e.X.map fun col => " - remove column " ++ colString col ++ "\n")
    | .emit => "")

/-- Modelled from the spec: the unified rendering
`mdiff.FormatUnified(mdiff.New(...).AddContext(2).Unify(), ...)` of the
external mdiff library (advisory text; only its presence matters to the
code, which guards on the edit script being nonempty). -/
def formatUnified (es : List (Edit String)) : String :=
  strJoin (es.map fun e =>
    match e.op with
    | .emit => strJoin (e.Y.map fun l => " " ++ l ++ "\n")
    | .drop => strJoin (e.X.map fun l => "-" ++ l ++ "\n")
    | .copy => strJoin (e.Y.map fun l => "+" ++ l ++ "\n")
    | .replace =>
      strJoin (e.X.map fun l => "-" ++ l ++ "\n") ++
        strJoin (e.Y.map fun l => "+" ++ l ++ "\n"))

/-- Go `indentLines`: each line of `text` written as `indent line`. -/
def indentLines (indent text : String) : String :=
  strJoin ((mstrLines text).map fun line => indent ++ " " ++ line ++ "\n")

/-- Lookup in the Go map built by insertion over a slice: the last row
with the given `(Type, Name)` key wins. -/
def lookupKey (rows : List schemaRow) (k : String × String) : Option schemaRow :=
  match rows with
  | [] => none
  | r :: rest =>
    match lookupKey rest k with
    | some o => some o
    | none => if (r.Typ, r.Name) = k then some r else none

/-- Go `diffSchema` (textcrime.go, authoritative variant): a
human-readable summary of the changes from `ar` to `br`. -/
def diffSchema (ar br : List schemaRow) : String :=
  strJoin (ar.map fun r =>
    match lookupKey br (r.Typ, r.Name) with
    | none => "\n>> Remove " ++ r.Typ ++ " \"" ++ r.Name ++ "\"\n"
    | some o =>
      if r.Columns = [] ∧ o.Columns = [] then
        if cleanSQL r.SQL = cleanSQL o.SQL then ""
        else
          let sd := editScript (cleanLines r.SQL) (cleanLines o.SQL)
          if sd ≠ [] then
            "\n>> Modify " ++ r.Typ ++ " \"" ++ r.Name ++ "\"\n" ++ formatUnified sd
          else ""
      else
        let dc := editScript r.Columns o.Columns
        if dc = [] then ""
        else "\n>> Modify " ++ r.Typ ++ " \"" ++ r.Name ++ "\"\n" ++ diffColumns dc) ++
  strJoin (br.map fun r =>
    if (lookupKey ar (r.Typ, r.Name)).isSome then ""
    else
      "\n>> Add " ++ r.Typ ++ " \"" ++ r.Name ++ "\"\n" ++
        (if r.SQL ≠ "" then indentLines "+" r.SQL else ""))

/-- Go `ValidationError`. -/
structure ValidationError where
  Diff : String
deriving DecidableEq, Repr

inductive ValidateError where
  | compileFailed (e : String)
  | invalid (v : ValidationError)
deriving DecidableEq, Repr

/-- Go `Validate` (validate.go, authoritative variant): canonicalize the
SQL text via a disposable instance, canonical-read the live database,
and report a `ValidationError` carrying the diff when it is nonempty. -/
def Validate (env : Env) (db : DBData) (schema : String) : Except ValidateError Unit :=
  match schemaTextToRows env schema with
  | .error e => .error (.compileFailed e)
  | .ok comp =>
    let main := readSchema db.cat
    let diff := diffSchema main comp
    if diff ≠ "" then .error (.invalid ⟨diff⟩) else .ok ()

/-! ## History codec (squibble.go compress / uncompress)

Go strings and blobs are byte sequences, modelled as `List Nat`.  The
zstd codec is external; it is modelled by its interface contract: a
framed encoding that decoding inverts, with decoding rejecting blobs
that do not carry the frame header. -/

/-- The zstd frame magic number. -/
def zstdMagic : List Nat := [40, 181, 47, 253]

/-- Modelled from the spec: `zstd.EncodeAll` of the external compress
library — a framed, losslessly invertible encoding of the input. -/
def zstdEncodeAll (text : List Nat) : List Nat := zstdMagic ++ text

/-- Modelled from the spec: `zstd.DecodeAll`, inverting `zstdEncodeAll`
and failing on blobs that are not valid frames. -/
def zstdDecodeAll (blob : List Nat) : Except String (List Nat) :=
  if blob.take 4 = zstdMagic then .ok (blob.drop 4) else .error "invalid input"

/-- Go `compress`. -/
def compress (text : List Nat) : List Nat := zstdEncodeAll text

/-- Go `uncompress`: empty blobs yield the empty string, undecodable
blobs fall back to the raw bytes as literal text. -/
def uncompress (blob : List Nat) : List Nat :=
  if blob.length = 0 then []
  else
    match zstdDecodeAll blob with
    | .ok dec => dec
    | .error _ => blob

/-! ## Claim-side definitions

These follow the wording of the specification (not the source), for the
refinement claims that compare the spec's description of fingerprinting
and checking against the implementation. -/

/-- The normalization step as claim C4 words it: table rows lose their
SQL; other rows have each line trimmed and the lines joined with
newlines. -/
def claimNormalizeRowNl (r : schemaRow) : schemaRow :=
  if r.Typ = "table" then { r with SQL := "" }
  else { r with SQL := String.intercalate "\n" (cleanLines r.SQL) }

/-- Claim C4's digest: lowercase-hex SHA-256 of the compact serialization
of the (claim-normalized) rows terminated by a single newline. -/
def schemaDigestClaimNl (sr : List schemaRow) : String :=
  sha256Hex (utf8Bytes (jsonRows (sr.map claimNormalizeRowNl) ++ "\n"))

/-- The normalization step with the join corrected to single spaces (the
amended claim C4). -/
def specNormalizeRow (r : schemaRow) : schemaRow :=
  if r.Typ = "table" then { r with SQL := "" }
  else { r with SQL := String.intercalate " " (cleanLines r.SQL) }

/-- The amended claim C4's digest. -/
def schemaDigestSpec (sr : List schemaRow) : String :=
  sha256Hex (utf8Bytes (jsonRows (sr.map specNormalizeRow) ++ "\n"))

def ruleFieldErrors (i : Nat) (u : UpdateRule) : List CheckError :=
  (if u.Source = "" then [CheckError.missingSource i] else []) ++
  (if u.Target = "" then [CheckError.missingTarget i] else []) ++
  (if u.hasApply then [] else [CheckError.missingApply i])

/-- Claim C5's stitch error, as worded: one error for every rule whose
Source differs from the previous rule's Target. -/
def claimStitchError (i : Nat) (prev : String) (u : UpdateRule) : List CheckError :=
  if u.Source ≠ prev then [CheckError.badStitch i prev u.Source] else []

/-- The stitch error as implemented: only compared against a nonempty
previous target. -/
def specStitchError (i : Nat) (prev : String) (u : UpdateRule) : List CheckError :=
  if prev ≠ "" ∧ u.Source ≠ prev then [CheckError.badStitch i prev u.Source] else []

/-- The rule walk as claim C5 words it, pairing each rule with the
previous rule's target (no previous target for the first rule) and
always comparing the final accumulated target against the current
digest. -/
def checkErrsClaim (hc : String) (us : List UpdateRule) : List CheckError :=
  ((((List.range us.length).zip ((none :: us.map (fun u => some u.Target)).zip us)).map
    fun p =>
      ruleFieldErrors (p.1 + 1) p.2.2 ++
        (match p.2.1 with
         | none => []
         | some prev => claimStitchError (p.1 + 1) prev p.2.2)).flatten) ++
  (match (us.map (fun u => u.Target)).getLast? with
   | none => []
   | some last => if last ≠ hc then [CheckError.missingUpgrade last hc] else [])

/-- Claim C5's reading of `Check`. -/
def CheckClaim (env : Env) (s : Schema) : Except (List CheckError) Unit :=
  if s.Current = "" then .error [.noCurrentSchema]
  else
    match SQLDigest env s.Current with
    | .error e => .error [.digestFailed e]
    | .ok hc =>
      match checkErrsClaim hc s.Updates with
      | [] => .ok ()
      | errs => .error errs

/-- The rule walk as the amended claim C5 describes it: stitch errors
only against a nonempty previous target, and the final comparison only
when the final accumulated target is nonempty.  `i0` and `last0` mirror
the initial loop state (rule number 1, empty previous target). -/
def checkErrsSpecFrom (hc : String) (i0 : Nat) (last0 : String) (us : List UpdateRule) :
    List CheckError :=
  ((((List.range us.length).zip ((last0 :: us.map (fun u => u.Target)).zip us)).map
    fun p =>
      ruleFieldErrors (i0 + p.1) p.2.2 ++ specStitchError (i0 + p.1) p.2.1 p.2.2).flatten) ++
  (let lastT := (us.map (fun u => u.Target)).getLastD last0
   if lastT ≠ "" ∧ lastT ≠ hc then [CheckError.missingUpgrade lastT hc] else [])

def checkErrsSpec (hc : String) (us : List UpdateRule) : List CheckError :=
  checkErrsSpecFrom hc 1 "" us

/-- Pairwise-distinct (Type, Name) keys: the catalog invariant under
which structural equality is reflected by an empty diff. -/
def keysUnique (rows : List schemaRow) : Prop :=
  rows.Pairwise (fun a b => (a.Typ, a.Name) ≠ (b.Typ, b.Name))

instance keysUniqueDecidable (rows : List schemaRow) : Decidable (keysUnique rows) := by
  unfold keysUnique
  infer_instance

instance exceptDecEq {ε α : Type} [DecidableEq ε] [DecidableEq α] :
    DecidableEq (Except ε α) := fun a b =>
  match a, b with
  | .error e1, .error e2 =>
    if h : e1 = e2 then isTrue (by rw [h]) else isFalse (fun hh => h (Except.error.inj hh))
  | .error _, .ok _ => isFalse (fun hh => Except.noConfusion hh)
  | .ok _, .error _ => isFalse (fun hh => Except.noConfusion hh)
  | .ok v1, .ok v2 =>
    if h : v1 = v2 then isTrue (by rw [h]) else isFalse (fun hh => h (Except.ok.inj hh))

/-! ## Concrete fixtures for witnesses and counterexamples -/

def tRawFix : RawRow :=
  ⟨"table", "t", "t", some "CREATE TABLE t (x)", [⟨"id", "integer", 0, none, 1, 0⟩]⟩

def uRawFix : RawRow :=
  ⟨"table", "u", "u", some "CREATE TABLE u (y)", [⟨"y", "integer", 0, none, 0, 0⟩]⟩

def vRawSpaced : RawRow := ⟨"view", "v", "v", some " a \n b ", []⟩

def vRawPlain : RawRow := ⟨"view", "v", "v", some "a\nb", []⟩

/-- Engine semantics fixture: every text creates the single table `u`. -/
def envU : Env := fun _ => .ok [uRawFix]

/-- Engine semantics fixture: every text creates the single table `t`. -/
def envT : Env := fun _ => .ok [tRawFix]

/-- Engine semantics fixture: every text creates the view `v` with plain
SQL text. -/
def envV : Env := fun _ => .ok [vRawPlain]

/-- Engine semantics fixture: executing any text fails to create rows. -/
def envNil : Env := fun _ => .ok []

def digEmptyFix : String :=
  "38e0b9de817f645c4bec37c0d4a3e58baecccb040f5718dc069a72c7385a0bed"

def digTFix : String :=
  "43f358469ac625a4a257224d12ee5f80a0782456aec3c26b9b2f7941e61e1d45"

def digUFix : String :=
  "1aaf833d9ee7410621614e21261d80214d6fded7e4698fb3f77a8c0b449ce60b"

def hRawFix : RawRow :=
  ⟨"table", historyTableName, historyTableName, some "CREATE TABLE h (x)", []⟩

def aRawFix : RawRow := ⟨"index", "sqlite_autoindex_t_1", "t", none, []⟩

def tRowFix : schemaRow :=
  ⟨"table", "t", "t", [⟨"id", "INTEGER", false, none, true, 0⟩], "CREATE TABLE t (x)"⟩

def s3Fix : Schema := ⟨"CREATE TABLE u (y)", [⟨digEmptyFix, digUFix, true, fun c => .ok c⟩]⟩

def db3Fix : DBData := ⟨[tRawFix], [⟨digTFix, "old"⟩]⟩

def s1Fix : Schema := ⟨"CREATE TABLE u (y)", [⟨digTFix, digUFix, true, fun _ => .ok []⟩]⟩

def db1Fix : DBData := ⟨[tRawFix], [⟨digTFix, "old"⟩]⟩

/-! ## Comparator laws and sorting lemmas -/

/-- The properties of a comparator needed for sortedness reasoning;
they hold for all the Go `cmp.Compare`-style comparators modelled here. -/
structure IsLawfulCmp {α : Type} (cmp : α → α → Ordering) : Prop where
  swapEq : ∀ a b, (cmp a b).swap = cmp b a
  ltTrans : ∀ a b c, cmp a b = .lt → cmp b c = .lt → cmp a c = .lt
  eqLeft : ∀ a b c, cmp a b = .eq → cmp a c = cmp b c

def cmpBy {α β : Type} (f : β → α) (cmp : α → α → Ordering) : β → β → Ordering :=
  fun a b => cmp (f a) (f b)

def cmpLex {α : Type} (c1 c2 : α → α → Ordering) : α → α → Ordering :=
  fun a b =>
    match c1 a b with
    | .eq => c2 a b
    | v => v

theorem cmpChar_lt_iff (a b : Char) : cmpChar a b = .lt ↔ a.toNat < b.toNat := by
  unfold cmpChar
  split_ifs <;> simp_all <;> omega

theorem cmpChar_eq_iff (a b : Char) : cmpChar a b = .eq ↔ a.toNat = b.toNat := by
  unfold cmpChar
  split_ifs <;> simp_all <;> omega

theorem cmpChar_gt_iff (a b : Char) : cmpChar a b = .gt ↔ b.toNat < a.toNat := by
  unfold cmpChar
  split_ifs <;> simp_all <;> omega

theorem cmpChar_swap (a b : Char) : (cmpChar a b).swap = cmpChar b a := by
  rcases h : cmpChar a b with _ | _ | _
  · rw [cmpChar_lt_iff] at h
    have : cmpChar b a = .gt := (cmpChar_gt_iff b a).2 h
    simp [this, Ordering.swap]
  · rw [cmpChar_eq_iff] at h
    have : cmpChar b a = .eq := (cmpChar_eq_iff b a).2 h.symm
    simp [this, Ordering.swap]
  · rw [cmpChar_gt_iff] at h
    have : cmpChar b a = .lt := (cmpChar_lt_iff b a).2 h
    simp [this, Ordering.swap]

theorem cmpCharList_swap : ∀ as bs : List Char, (cmpCharList as bs).swap = cmpCharList bs as := by
  intro as
  induction as with
  | nil => intro bs; cases bs <;> rfl
  | cons a as ih =>
    intro bs
    cases bs with
    | nil => rfl
    | cons b bs =>
      have hba : cmpChar b a = (cmpChar a b).swap := (cmpChar_swap a b).symm
      rcases h : cmpChar a b with _ | _ | _ <;> rw [h] at hba
      · simp [cmpCharList, h, hba, Ordering.swap]
      · simp only [cmpCharList, h, hba]
        simpa [Ordering.swap] using ih bs
      · simp [cmpCharList, h, hba, Ordering.swap]

theorem cmpCharList_eq (as bs : List Char) (h : cmpCharList as bs = .eq) : as = bs := by
  induction as generalizing bs with
  | nil => cases bs with
    | nil => rfl
    | cons b bs => simp [cmpCharList] at h
  | cons a as ih =>
    cases bs with
    | nil => simp [cmpCharList] at h
    | cons b bs =>
      simp only [cmpCharList] at h
      rcases hc : cmpChar a b with _ | _ | _ <;> rw [hc] at h
      · exact absurd h (by simp)
      · have hab : a = b := by
          have hv : a.val = b.val := by
            apply UInt32.ext
            exact (cmpChar_eq_iff a b).1 hc
          exact Char.ext hv
        rw [hab, ih bs h]
      · exact absurd h (by simp)

theorem cmpCharList_lt_trans :
    ∀ as bs cs : List Char, cmpCharList as bs = .lt → cmpCharList bs cs = .lt →
      cmpCharList as cs = .lt := by
  intro as
  induction as with
  | nil =>
    intro bs cs h1 h2
    cases bs with
    | nil => simp [cmpCharList] at h1
    | cons b bs =>
      cases cs with
      | nil => simp [cmpCharList] at h2
      | cons c cs => rfl
  | cons a as ih =>
    intro bs cs h1 h2
    cases bs with
    | nil => simp [cmpCharList] at h1
    | cons b bs =>
      cases cs with
      | nil => simp [cmpCharList] at h2
      | cons c cs =>
        simp only [cmpCharList] at h1 h2 ⊢
        rcases hab : cmpChar a b with _ | _ | _ <;> rw [hab] at h1
        · rcases hbc : cmpChar b c with _ | _ | _ <;> rw [hbc] at h2
          · have hac : cmpChar a c = .lt := by
              rw [cmpChar_lt_iff] at hab hbc ⊢
              omega
            rw [hac]
          · have hac : cmpChar a c = .lt := by
              rw [cmpChar_lt_iff] at hab
              rw [cmpChar_eq_iff] at hbc
              rw [cmpChar_lt_iff]
              omega
            rw [hac]
          · exact absurd h2 (by simp)
        · rcases hbc : cmpChar b c with _ | _ | _ <;> rw [hbc] at h2
          · have hac : cmpChar a c = .lt := by
              rw [cmpChar_eq_iff] at hab
              rw [cmpChar_lt_iff] at hbc ⊢
              omega
            rw [hac]
          · have hac : cmpChar a c = .eq := by
              rw [cmpChar_eq_iff] at hab hbc ⊢
              omega
            rw [hac]
            exact ih bs cs h1 h2
          · exact absurd h2 (by simp)
        · exact absurd h1 (by simp)

theorem cmpStr_lawful : IsLawfulCmp cmpStr := by
  refine ⟨?_, ?_, ?_⟩
  · intro a b
    exact cmpCharList_swap a.data b.data
  · intro a b c h1 h2
    exact cmpCharList_lt_trans a.data b.data c.data h1 h2
  · intro a b c h
    have : a.data = b.data := cmpCharList_eq _ _ h
    unfold cmpStr
    rw [this]

theorem cmpBy_lawful {α β : Type} (f : β → α) (cmp : α → α → Ordering)
    (h : IsLawfulCmp cmp) : IsLawfulCmp (cmpBy f cmp) := by
  refine ⟨fun a b => h.swapEq (f a) (f b), fun a b c => h.ltTrans (f a) (f b) (f c),
    fun a b c => h.eqLeft (f a) (f b) (f c)⟩

theorem IsLawfulCmp.eqRight {α : Type} {cmp : α → α → Ordering} (h : IsLawfulCmp cmp)
    {b c : α} (a : α) (hbc : cmp b c = .eq) : cmp a b = cmp a c := by
  have h1 : cmp b a = cmp c a := h.eqLeft b c a hbc
  have h2 : (cmp b a).swap = (cmp c a).swap := by rw [h1]
  rw [h.swapEq b a, h.swapEq c a] at h2
  exact h2

theorem cmpLex_lawful {α : Type} (c1 c2 : α → α → Ordering)
    (h1 : IsLawfulCmp c1) (h2 : IsLawfulCmp c2) : IsLawfulCmp (cmpLex c1 c2) := by
  refine ⟨?_, ?_, ?_⟩
  · intro a b
    have hba : c1 b a = (c1 a b).swap := (h1.swapEq a b).symm
    unfold cmpLex
    rcases h : c1 a b with _ | _ | _ <;> rw [h] at hba <;>
      simp only [Ordering.swap] at hba
    · simp [hba, Ordering.swap]
    · simp only [hba]
      exact h2.swapEq a b
    · simp [hba, Ordering.swap]
  · intro a b c hab hbc
    unfold cmpLex at hab hbc ⊢
    rcases h12 : c1 a b with _ | _ | _ <;> rw [h12] at hab
    · rcases h23 : c1 b c with _ | _ | _ <;> rw [h23] at hbc
      · rw [h1.ltTrans a b c h12 h23]
      · rw [← h1.eqRight a h23, h12]
      · exact absurd hbc (by simp)
    · rcases h23 : c1 b c with _ | _ | _ <;> rw [h23] at hbc
      · rw [h1.eqLeft a b c h12, h23]
      · rw [h1.eqLeft a b c h12, h23]
        exact h2.ltTrans a b c hab hbc
      · exact absurd hbc (by simp)
    · exact absurd hab (by simp)
  · intro a b c h
    unfold cmpLex at h ⊢
    rcases h12 : c1 a b with _ | _ | _ <;> rw [h12] at h
    · exact absurd h (by simp)
    · rw [h1.eqLeft a b c h12]
      rcases h13 : c1 b c with _ | _ | _
      · rfl
      · exact h2.eqLeft a b c h
      · rfl
    · exact absurd h (by simp)

/-- The derived facts used for sortedness: totality and transitivity of
the reflexive order `cmp a b ≠ .gt`. -/
theorem IsLawfulCmp.notGtTrans {α : Type} {cmp : α → α → Ordering} (h : IsLawfulCmp cmp)
    {a b c : α} (hab : cmp a b ≠ .gt) (hbc : cmp b c ≠ .gt) : cmp a c ≠ .gt := by
  rcases h12 : cmp a b with _ | _ | _
  · rcases h23 : cmp b c with _ | _ | _
    · rw [h.ltTrans a b c h12 h23]
      simp
    · rw [← h.eqRight a h23, h12]
      simp
    · exact absurd h23 hbc
  · rw [h.eqLeft a b c h12]
    exact hbc
  · exact absurd h12 hab

theorem IsLawfulCmp.notLtFlip {α : Type} {cmp : α → α → Ordering} (h : IsLawfulCmp cmp)
    {a b : α} (hab : cmp a b ≠ .lt) : cmp b a ≠ .gt := by
  intro hba
  have := h.swapEq b a
  rw [hba] at this
  exact hab (by
    cases hx : cmp a b <;> simp [hx, Ordering.swap] at this ⊢)

theorem mem_insertBy {α : Type} (cmp : α → α → Ordering) (a x : α) :
    ∀ l : List α, x ∈ insertBy cmp a l → x = a ∨ x ∈ l := by
  intro l
  induction l with
  | nil =>
    intro h
    simp [insertBy] at h
    exact Or.inl h
  | cons b bs ih =>
    intro h
    simp only [insertBy] at h
    split at h
    · rcases List.mem_cons.1 h with h1 | h1
      · exact Or.inl h1
      · exact Or.inr h1
    · rcases List.mem_cons.1 h with h1 | h1
      · exact Or.inr (List.mem_cons.2 (Or.inl h1))
      · rcases ih h1 with h2 | h2
        · exact Or.inl h2
        · exact Or.inr (List.mem_cons.2 (Or.inr h2))

theorem pairwise_insertBy {α : Type} {cmp : α → α → Ordering} (h : IsLawfulCmp cmp) (a : α) :
    ∀ l : List α, l.Pairwise (fun x y => cmp x y ≠ .gt) →
      (insertBy cmp a l).Pairwise (fun x y => cmp x y ≠ .gt) := by
  intro l
  induction l with
  | nil =>
    intro _
    simp [insertBy]
  | cons b bs ih =>
    intro hp
    rcases List.pairwise_cons.1 hp with ⟨hb, hbs⟩
    simp only [insertBy]
    split
    · next hlt =>
      refine List.pairwise_cons.2 ⟨?_, hp⟩
      intro y hy
      rcases List.mem_cons.1 hy with h1 | h1
      · rw [h1, hlt]
        simp
      · exact h.notGtTrans (by rw [hlt]; simp) (hb y h1)
    · next hnlt =>
      refine List.pairwise_cons.2 ⟨?_, ih hbs⟩
      intro y hy
      rcases mem_insertBy cmp a y _ hy with h1 | h1
      · rw [h1]
        exact h.notLtFlip hnlt
      · exact hb y h1

theorem pairwise_sortBy {α : Type} {cmp : α → α → Ordering} (h : IsLawfulCmp cmp) :
    ∀ l : List α, (sortBy cmp l).Pairwise (fun x y => cmp x y ≠ .gt) := by
  intro l
  induction l with
  | nil => simp [sortBy]
  | cons a as ih => exact pairwise_insertBy h a _ ih

theorem mem_sortBy {α : Type} (cmp : α → α → Ordering) (x : α) :
    ∀ l : List α, x ∈ sortBy cmp l → x ∈ l := by
  intro l
  induction l with
  | nil => simp [sortBy]
  | cons a as ih =>
    intro hx
    rcases mem_insertBy cmp a x _ hx with h1 | h1
    · rw [h1]; exact List.mem_cons_self a as
    · exact List.mem_cons.2 (Or.inr (ih h1))

theorem insertBy_ne_nil {α : Type} (cmp : α → α → Ordering) (a : α) (l : List α) :
    insertBy cmp a l ≠ [] := by
  cases l with
  | nil => simp [insertBy]
  | cons b bs =>
    simp only [insertBy]
    split <;> simp

theorem sortBy_eq_nil_iff {α : Type} (cmp : α → α → Ordering) (l : List α) :
    sortBy cmp l = [] ↔ l = [] := by
  cases l with
  | nil => simp [sortBy]
  | cons a as =>
    simp only [sortBy]
    constructor
    · intro h
      exact absurd h (insertBy_ne_nil cmp a _)
    · intro h
      exact absurd h (by simp)

theorem compareSchemaRows_lawful : IsLawfulCmp compareSchemaRows := by
  have h1 := cmpBy_lawful (fun r : schemaRow => r.Typ) cmpStr cmpStr_lawful
  have h2 := cmpBy_lawful (fun r : schemaRow => r.Name) cmpStr cmpStr_lawful
  have h3 := cmpBy_lawful (fun r : schemaRow => r.TableName) cmpStr cmpStr_lawful
  have h4 := cmpBy_lawful (fun r : schemaRow => r.SQL) cmpStr cmpStr_lawful
  have : compareSchemaRows =
      cmpLex (cmpBy (fun r : schemaRow => r.Typ) cmpStr)
        (cmpLex (cmpBy (fun r : schemaRow => r.Name) cmpStr)
          (cmpLex (cmpBy (fun r : schemaRow => r.TableName) cmpStr)
            (cmpBy (fun r : schemaRow => r.SQL) cmpStr))) := rfl
  rw [this]
  exact cmpLex_lawful _ _ h1 (cmpLex_lawful _ _ h2 (cmpLex_lawful _ _ h3 h4))

/-! ## Supporting lemmas about the embedded functions -/

theorem utf8Bytes_append (s t : String) : utf8Bytes (s ++ t) = utf8Bytes s ++ utf8Bytes t := by
  have hdata : (s ++ t).data = s.data ++ t.data := by
    cases s
    cases t
    rfl
  unfold utf8Bytes
  rw [hdata, List.map_append, List.flatten_append]

theorem schemaDigestRows_eq_map (sr : List schemaRow) :
    schemaDigestRows sr =
      sr.map (fun r =>
        if r.Typ = "table" then { r with SQL := "" } else { r with SQL := cleanSQL r.SQL }) := by
  induction sr with
  | nil => rfl
  | cons r rest ih => simp [schemaDigestRows, ih]

theorem readSchema_append_of_left_empty (a b : List RawRow) (h : readSchema a = []) :
    readSchema (a ++ b) = readSchema b := by
  unfold readSchema at h ⊢
  have ha : a.filterMap readSchemaRow = [] := (sortBy_eq_nil_iff _ _).1 h
  rw [List.filterMap_append, ha, List.nil_append]

theorem readSchemaRow_filters (raw : RawRow) (r : schemaRow)
    (h : readSchemaRow raw = some r) :
    r.TableName ≠ historyTableName ∧ r.TableName ≠ "sqlite_sequence" ∧
      strStarts r.Name "sqlite_autoindex_" = false := by
  unfold readSchemaRow at h
  split at h
  · exact absurd h (by simp)
  · next hskip =>
    split at h
    · exact absurd h (by simp)
    · next hauto =>
      have hinj := Option.some.inj h
      rw [← hinj]
      simp only [Bool.or_eq_true, decide_eq_true_eq, not_or] at hskip
      refine ⟨hskip.1, hskip.2, ?_⟩
      simpa using hauto

theorem strJoin_map_empty {α : Type} (l : List α) (f : α → String)
    (h : ∀ x ∈ l, f x = "") : strJoin (l.map f) = "" := by
  induction l with
  | nil => rfl
  | cons a as ih =>
    simp only [List.map_cons, strJoin]
    rw [h a (List.mem_cons_self a as), ih (fun x hx => h x (List.mem_cons.2 (Or.inr hx)))]
    rfl

theorem editScript_self {α : Type} [DecidableEq α] (a : List α) : editScript a a = [] := by
  simp [editScript]

theorem lookupKey_mem (rs : List schemaRow) (k : String × String) (o : schemaRow)
    (h : lookupKey rs k = some o) : o ∈ rs ∧ (o.Typ, o.Name) = k := by
  induction rs with
  | nil => simp [lookupKey] at h
  | cons r rest ih =>
    simp only [lookupKey] at h
    rcases hrest : lookupKey rest k with _ | o2 <;> rw [hrest] at h
    · by_cases hk : (r.Typ, r.Name) = k
      · rw [if_pos hk] at h
        cases Option.some.inj h
        exact ⟨List.mem_cons_self _ _, hk⟩
      · rw [if_neg hk] at h
        exact absurd h (by simp)
    · cases Option.some.inj h
      obtain ⟨hmem, hk2⟩ := ih hrest
      exact ⟨List.mem_cons.2 (Or.inr hmem), hk2⟩

theorem lookupKey_eq_none (rs : List schemaRow) (k : String × String)
    (h : ∀ o ∈ rs, (o.Typ, o.Name) ≠ k) : lookupKey rs k = none := by
  induction rs with
  | nil => rfl
  | cons r rest ih =>
    simp only [lookupKey]
    rw [ih (fun o ho => h o (List.mem_cons.2 (Or.inr ho)))]
    rw [if_neg (h r (List.mem_cons_self r rest))]

theorem lookupKey_self (rs : List schemaRow) (r : schemaRow)
    (hu : keysUnique rs) (hr : r ∈ rs) : lookupKey rs (r.Typ, r.Name) = some r := by
  induction rs with
  | nil => simp at hr
  | cons x rest ih =>
    rcases List.pairwise_cons.1 hu with ⟨hx, hrest⟩
    rcases List.mem_cons.1 hr with h1 | h1
    · subst h1
      simp only [lookupKey]
      rw [lookupKey_eq_none rest (r.Typ, r.Name) (fun o ho => Ne.symm (hx o ho))]
      simp
    · simp only [lookupKey]
      rw [ih hrest h1]

theorem diffSchema_refl (rs : List schemaRow) (hu : keysUnique rs) : diffSchema rs rs = "" := by
  unfold diffSchema
  rw [strJoin_map_empty, strJoin_map_empty] <;>
    first
      | rfl
      | (intro r hr
         rw [lookupKey_self rs r hu hr]
         simp [editScript_self])

theorem checkErrs_eq_specFrom (hc : String) :
    ∀ (us : List UpdateRule) (i : Nat) (last : String),
      checkErrs hc i last us = checkErrsSpecFrom hc i last us := by
  intro us
  induction us with
  | nil =>
    intro i last
    simp [checkErrs, checkErrsSpecFrom]
  | cons u us ih =>
    intro i last
    simp only [checkErrs, ih]
    unfold checkErrsSpecFrom
    simp only [List.length_cons, List.range_succ_eq_map, List.map_cons, List.zip_cons_cons,
      List.flatten_cons, List.getLastD_cons, List.zip_map_left, List.map_map]
    have hfun : ∀ p ∈ (List.range us.length).zip
        ((u.Target :: us.map (fun u => u.Target)).zip us),
        ((fun p : Nat × (String × UpdateRule) =>
            ruleFieldErrors (i + p.1) p.2.2 ++ specStitchError (i + p.1) p.2.1 p.2.2) ∘
          Prod.map Nat.succ id) p =
        (fun p : Nat × (String × UpdateRule) =>
            ruleFieldErrors (i + 1 + p.1) p.2.2 ++ specStitchError (i + 1 + p.1) p.2.1 p.2.2) p := by
      intro p _
      simp only [Function.comp, Prod.map, id]
      rw [show i + Nat.succ p.1 = i + 1 + p.1 by omega]
    rw [List.map_congr_left hfun]
    simp only [Nat.add_zero, ruleFieldErrors, specStitchError, List.append_assoc]

/-! ## Claim theorems -/

/-- C4, counterexample: the claim's normalization joins the trimmed lines
of non-table SQL with newlines, but `schemaDigest` joins them with
single spaces, so the two digests differ on a two-line view definition. -/
theorem schemaDigest_newline_join_refuted :
    schemaDigest [⟨"view", "v", "v", [], "a\nb"⟩] ≠
      schemaDigestClaimNl [⟨"view", "v", "v", [], "a\nb"⟩] := by
  decide

/-- C4 (amended): for every canonical row sequence, `schemaDigest` is the
lowercase-hex SHA-256 of the compact serialization of the rows terminated
by one newline, after clearing the SQL of table rows and

whitespace-normalizing the SQL of other rows by trimming each line and
joining the lines with single spaces. -/
theorem schemaDigest_space_join (sr : List schemaRow) :
    schemaDigest sr = schemaDigestSpec sr := by
  unfold schemaDigest schemaDigestGo schemaDigestSpec
  rw [schemaDigestRows_eq_map, utf8Bytes_append]
  rfl

/-- C5, counterexample: on a rule whose Target is empty, the claim's walk
reports a final-target mismatch (and a stitch error against the empty
previous target), while `Check` guards both comparisons on nonemptiness;
the accumulated error lists differ. -/
theorem check_claim_walk_refuted :
    CheckClaim envNil ⟨"x", [⟨"a", "", true, fun c => .ok c⟩]⟩ ≠
      Check envNil ⟨"x", [⟨"a", "", true, fun c => .ok c⟩]⟩ := by
  decide

/-- C5 (amended): `Check` errors whenever Current is empty; otherwise,
given that the current schema's digest computes, it walks every rule
without short-circuiting, accumulating one error per missing Source,
Target or Apply field, one error per rule whose Source differs from the
previous rule's nonempty Target (naming the 1-based rule index and both
digests), and, after the walk, an error if the final accumulated Target
is nonempty and differs from the current schema's digest; the result is
the join of all accumulated errors. -/
theorem check_accumulates_guarded_errors (env : Env) (s : Schema) (hc : String) :
    (s.Current = "" → Check env s = .error [.noCurrentSchema]) ∧
    (s.Current ≠ "" → SQLDigest env s.Current = .ok hc →
      Check env s =
        (match checkErrsSpec hc s.Updates with
         | [] => .ok ()
         | errs => .error errs)) := by
  constructor
  · intro h
    unfold Check
    rw [if_pos h]
  · intro h1 h2
    unfold Check
    rw [if_neg h1]
    simp only [h2]
    rw [checkErrs_eq_specFrom]
    rfl

/-- C5, witness at a concrete two-rule schema whose chain is consistent. -/
theorem check_accumulates_guarded_errors_witness :
    Check envNil ⟨"x", [⟨"a", "b", true, fun c => .ok c⟩,
        ⟨"b", digEmptyFix, true, fun c => .ok c⟩]⟩ =
      (match checkErrsSpec digEmptyFix
          [⟨"a", "b", true, fun c => .ok c⟩, ⟨"b", digEmptyFix, true, fun c => .ok c⟩] with
       | [] => .ok ()
       | errs => .error errs) :=
  (check_accumulates_guarded_errors envNil
      ⟨"x", [⟨"a", "b", true, fun c => .ok c⟩, ⟨"b", digEmptyFix, true, fun c => .ok c⟩]⟩
      digEmptyFix).2 (by decide) (by decide)

/-- C9: `uncompress` inverts `compress`, maps the empty blob to the
empty text, and falls back to the raw bytes on any blob the codec
rejects. -/
theorem uncompress_compress_roundtrip :
    (∀ s, uncompress (compress s) = s) ∧ uncompress [] = [] ∧
    (∀ b e, zstdDecodeAll b = .error e → uncompress b = b) := by
  refine ⟨?_, rfl, ?_⟩
  · intro s
    show uncompress (zstdMagic ++ s) = s
    unfold uncompress
    rw [if_neg (by simp [zstdMagic])]
    have hdec : zstdDecodeAll (zstdMagic ++ s) = .ok s := by
      unfold zstdDecodeAll
      have htake : List.take 4 (zstdMagic ++ s) = zstdMagic := rfl
      have hdrop : List.drop 4 (zstdMagic ++ s) = s := rfl
      rw [if_pos htake, hdrop]
    rw [hdec]
  · intro b e h
    unfold uncompress
    by_cases hb : b.length = 0
    · rw [if_pos hb]
      exact (List.length_eq_zero.1 hb).symm
    · rw [if_neg hb, h]

/-- C9, witness: a concrete round-trip and a concrete undecodable blob. -/
theorem uncompress_compress_roundtrip_witness :
    uncompress (compress [7, 8]) = [7, 8] ∧ uncompress [1, 2] = [1, 2] :=
  ⟨uncompress_compress_roundtrip.1 [7, 8],
   uncompress_compress_roundtrip.2.2 [1, 2] "invalid input" (by decide)⟩

/-- C10: `schemaDigest` rewrites its argument slice in place — after the
call every table-kind row has empty SQL and every other row carries the
whitespace-normalized SQL — and the digest is computed over exactly
those rewritten rows, which is what a caller reusing the slice observes. -/
theorem schemaDigestGo_rewrites_rows (sr : List schemaRow) :
    (schemaDigestGo sr).2 =
      sr.map (fun r =>
        if r.Typ = "table" then { r with SQL := "" } else { r with SQL := cleanSQL r.SQL }) ∧
    (schemaDigestGo sr).1 = sha256Hex (utf8Bytes (jsonRows (schemaDigestGo sr).2) ++ [10]) :=
  ⟨schemaDigestRows_eq_map sr, rfl⟩

/-- C7: every canonical row produced by `readSchema` is outside the
ledger table, outside `sqlite_sequence`, and not an auto-generated
`sqlite_autoindex_` object, and the sequence is sorted by
(type, name, owning table, SQL). -/
theorem readSchema_filters_and_sorts (cat : List RawRow) :
    (∀ r ∈ readSchema cat,
        r.TableName ≠ historyTableName ∧ r.TableName ≠ "sqlite_sequence" ∧
          strStarts r.Name "sqlite_autoindex_" = false) ∧
    (readSchema cat).Pairwise (fun a b => compareSchemaRows a b ≠ .gt) := by
  constructor
  · intro r hr
    have hr2 : r ∈ cat.filterMap readSchemaRow :=
      mem_sortBy compareSchemaRows r (cat.filterMap readSchemaRow) hr
    rw [List.mem_filterMap] at hr2
    obtain ⟨raw, _, hfm⟩ := hr2
    exact readSchemaRow_filters raw r hfm
  · exact pairwise_sortBy compareSchemaRows_lawful _

/-- C7, witness: a concrete catalog containing the ledger table and an
auto-index, whose canonical read retains only the user table. -/
theorem readSchema_filters_and_sorts_witness :
    ((readSchema [hRawFix, tRawFix, aRawFix]).Pairwise
        fun a b => compareSchemaRows a b ≠ .gt) ∧
      tRowFix.TableName ≠ historyTableName :=
  ⟨(readSchema_filters_and_sorts [hRawFix, tRawFix, aRawFix]).2,
   ((readSchema_filters_and_sorts [hRawFix, tRawFix, aRawFix]).1 tRowFix (by decide)).1⟩

/-- C6, counterexample: a live view whose SQL differs from the schema
text's only in line-leading/trailing whitespace validates to nil even
though the canonical rows are structurally unequal, refuting the claimed
equivalence of nil with exact structural equality. -/
theorem validate_exact_equality_refuted :
    Validate envV ⟨[vRawSpaced], []⟩ "sql" = .ok () ∧
    schemaTextToRows envV "sql" = .ok [⟨"view", "v", "v", [], "a\nb"⟩] ∧
    readSchema [vRawSpaced] ≠ [⟨"view", "v", "v", [], "a\nb"⟩] := by
  refine ⟨by decide, by decide, by decide⟩

/-- C6 (amended): `Validate` returns nil exactly when the differ's
summary of the live rows against the schema text's rows is empty;
structural equality of the rows implies nil (under pairwise-distinct
catalog keys), and a nonempty summary is returned inside the
`ValidationError`, but nil does not imply structural equality. -/
theorem validate_structural_diff (env : Env) (db : DBData) (schema : String)
    (comp : List schemaRow) (hComp : schemaTextToRows env schema = .ok comp)
    (hUniq : keysUnique comp) :
    (readSchema db.cat = comp → Validate env db schema = .ok ()) ∧
    (Validate env db schema = .ok () ↔ diffSchema (readSchema db.cat) comp = "") ∧
    (diffSchema (readSchema db.cat) comp ≠ "" →
      Validate env db schema = .error (.invalid ⟨diffSchema (readSchema db.cat) comp⟩)) := by
  have hV : Validate env db schema =
      (if diffSchema (readSchema db.cat) comp ≠ "" then
        .error (.invalid ⟨diffSchema (readSchema db.cat) comp⟩) else .ok ()) := by
    unfold Validate
    simp only [hComp]
  refine ⟨?_, ?_, ?_⟩
  · intro hEq
    rw [hV, hEq]
    rw [if_neg (by simp [diffSchema_refl comp hUniq])]
  · rw [hV]
    by_cases hd : diffSchema (readSchema db.cat) comp = ""
    · rw [if_neg (by simp [hd])]
      simp [hd]
    · rw [if_pos hd]
      simp [hd]
  · intro hne
    rw [hV, if_pos hne]

/-- C6, witness: a live database exactly matching the schema text
validates to nil. -/
theorem validate_structural_diff_witness :
    Validate envV ⟨[vRawPlain], []⟩ "sql" = .ok () :=
  (validate_structural_diff envV ⟨[vRawPlain], []⟩ "sql" [⟨"view", "v", "v", [], "a\nb"⟩]
      (by decide) (by decide)).1 (by decide)

theorem fpu_none_iff (us : List UpdateRule) (d : String) :
    firstPendingUpdate us d = none ↔ ∀ u ∈ us, u.Source ≠ d := by
  induction us with
  | nil => simp [firstPendingUpdate]
  | cons u rest ih =>
    simp only [firstPendingUpdate]
    rcases hrest : firstPendingUpdate rest d with _ | j
    · by_cases hu : u.Source = d
      · rw [if_pos hu]
        refine iff_of_false (by simp) ?_
        intro hAll
        exact hAll u (List.mem_cons_self _ _) hu
      · rw [if_neg hu]
        refine iff_of_true rfl ?_
        intro x hx
        rcases List.mem_cons.1 hx with h1 | h1
        · rw [h1]
          exact hu
        · exact ih.1 hrest x h1
    · refine iff_of_false (by simp) ?_
      intro hAll
      have hnone : firstPendingUpdate rest d = none :=
        ih.2 (fun v hv => hAll v (List.mem_cons.2 (Or.inr hv)))
      rw [hrest] at hnone
      exact absurd hnone (by simp)

theorem fpu_some_spec :
    ∀ (us : List UpdateRule) (d : String) (i : Nat),
      firstPendingUpdate us d = some i →
      ∃ u, us[i]? = some u ∧ u.Source = d ∧
        ∀ j v, i < j → us[j]? = some v → v.Source ≠ d := by
  intro us
  induction us with
  | nil =>
    intro d i h
    simp [firstPendingUpdate] at h
  | cons u rest ih =>
    intro d i h
    simp only [firstPendingUpdate] at h
    rcases hrest : firstPendingUpdate rest d with _ | j <;> rw [hrest] at h
    · by_cases hu : u.Source = d
      · rw [if_pos hu] at h
        cases Option.some.inj h
        refine ⟨u, by simp, hu, ?_⟩
        intro j v hij hget
        cases j with
        | zero => omega
        | succ k =>
          rw [List.getElem?_cons_succ] at hget
          exact (fpu_none_iff rest d).1 hrest v (List.getElem?_mem hget)
      · rw [if_neg hu] at h
        exact absurd h (by simp)
    · cases Option.some.inj h
      obtain ⟨v, hget, hsrc, hafter⟩ := ih d j hrest
      refine ⟨v, by simpa using hget, hsrc, ?_⟩
      intro j2 w hij hget2
      cases j2 with
      | zero => omega
      | succ k =>
        rw [List.getElem?_cons_succ] at hget2
        exact hafter k w (by omega) hget2

/-- C3: the pending-rule start index is found by scanning the rules
backward for a Source equal to the live digest (so the greatest matching
index wins; every later rule's Source differs), absence of a match is
exactly no rule carrying that Source, and in that case `Apply` fails
with the no-update-found error naming the digest, applying nothing. -/
theorem pending_update_selection :
    (∀ (us : List UpdateRule) (d : String) (i : Nat),
        firstPendingUpdate us d = some i →
        ∃ u, us[i]? = some u ∧ u.Source = d ∧
          ∀ j v, i < j → us[j]? = some v → v.Source ≠ d) ∧
    (∀ (us : List UpdateRule) (d : String),
        firstPendingUpdate us d = none ↔ ∀ u ∈ us, u.Source ≠ d) ∧
    (∀ (env : Env) (s : Schema) (db : DBData) (curHash : String),
        Check env s = .ok () → SQLDigest env s.Current = .ok curHash →
        db.history ≠ [] → DBDigest db.cat ≠ curHash →
        firstPendingUpdate s.Updates (DBDigest db.cat) = none →
        Apply env s db noFaults = (.error (.noUpdateFound (DBDigest db.cat)), db)) := by
  refine ⟨fpu_some_spec, fpu_none_iff, ?_⟩
  intro env s db curHash hCheck hCur hHist hLatest hFpu
  obtain ⟨cat, hist⟩ := db
  unfold Apply
  simp only [hCheck, hCur, noFaults, readSchemaLive, takeFault]
  cases hist with
  | nil => exact absurd rfl hHist
  | cons h0 t =>
    simp only [DBDigest] at hLatest hFpu
    simp only []
    rw [if_neg hLatest]
    simp only [hFpu, DBDigest]

/-- C3, witness: the backward search picks the later of two matching
rules, and a live digest matching no rule makes `Apply` fail leaving the
database unchanged. -/
theorem pending_update_selection_witness :
    (∃ u, ([⟨"a", "b", true, fun c => .ok c⟩,
        ⟨"a", "c", true, fun c => .ok c⟩] : List UpdateRule)[1]? = some u ∧
        u.Source = "a" ∧
        ∀ j v, 1 < j →
          ([⟨"a", "b", true, fun c => .ok c⟩,
            ⟨"a", "c", true, fun c => .ok c⟩] : List UpdateRule)[j]? = some v →
          v.Source ≠ "a") ∧
    Apply envU s3Fix db3Fix noFaults =
      (.error (.noUpdateFound (DBDigest db3Fix.cat)), db3Fix) :=
  ⟨pending_update_selection.1
      [⟨"a", "b", true, fun c => .ok c⟩, ⟨"a", "c", true, fun c => .ok c⟩] "a" 1 (by decide),
   pending_update_selection.2.2 envU s3Fix db3Fix digUFix (by decide) (by decide) (by decide)
      (by decide) (by decide)⟩

theorem runUpdates_head_mismatch (u : UpdateRule) (rest : List UpdateRule)
    (cat cat2 : List RawRow) (h1 : u.applyFn cat = .ok cat2)
    (h2 : DBDigest cat2 ≠ u.Target) :
    runUpdates (u :: rest) cat [] = .error (.confirmFailed (DBDigest cat2) u.Target) := by
  unfold runUpdates
  simp only [h1, takeFault]
  rw [if_pos h2]

theorem apply_runUpdates_error (env : Env) (s : Schema) (db : DBData)
    (curHash : String) (i : Nat) (e : ApplyError)
    (hCheck : Check env s = .ok ()) (hCur : SQLDigest env s.Current = .ok curHash)
    (hHist : db.history ≠ []) (hLatest : DBDigest db.cat ≠ curHash)
    (hFpu : firstPendingUpdate s.Updates (DBDigest db.cat) = some i)
    (hRun : runUpdates (s.Updates.drop i) db.cat [] = .error e) :
    Apply env s db noFaults = (.error e, db) := by
  obtain ⟨cat, hist⟩ := db
  unfold Apply
  simp only [hCheck, hCur, noFaults, readSchemaLive, takeFault]
  cases hist with
  | nil => exact absurd rfl hHist
  | cons h0 t =>
    simp only [DBDigest] at hLatest hFpu
    simp only [] at hRun
    simp only []
    rw [if_neg hLatest]
    simp only [hFpu, hRun]

/-- C1: a rule whose `applyFn` succeeds but leaves the database at a
digest other than its declared Target makes the upgrade loop fail with
the confirming-update error naming the computed and the declared digest,
and `Apply` then returns that error with the database rolled back to its
pre-call state (equal digest before and after). -/
theorem apply_confirm_mismatch_rolls_back :
    (∀ (u : UpdateRule) (rest : List UpdateRule) (cat cat2 : List RawRow),
        u.applyFn cat = .ok cat2 → DBDigest cat2 ≠ u.Target →
        runUpdates (u :: rest) cat [] = .error (.confirmFailed (DBDigest cat2) u.Target)) ∧
    (∀ (env : Env) (s : Schema) (db : DBData) (curHash : String) (i : Nat) (g w : String),
        Check env s = .ok () → SQLDigest env s.Current = .ok curHash →
        db.history ≠ [] → DBDigest db.cat ≠ curHash →
        firstPendingUpdate s.Updates (DBDigest db.cat) = some i →
        runUpdates (s.Updates.drop i) db.cat [] = .error (.confirmFailed g w) →
        Apply env s db noFaults = (.error (.confirmFailed g w), db) ∧
        DBDigest (Apply env s db noFaults).2.cat = DBDigest db.cat) := by
  refine ⟨runUpdates_head_mismatch, ?_⟩
  intro env s db curHash i g w hCheck hCur hHist hLatest hFpu hRun
  have hA := apply_runUpdates_error env s db curHash i (.confirmFailed g w)
    hCheck hCur hHist hLatest hFpu hRun
  exact ⟨hA, by rw [hA]⟩

/-- C1, witness: a concrete one-rule upgrade whose applyFn drops every
object, so confirmation sees the empty-schema digest instead of the
declared target, and the database is unchanged. -/
theorem apply_confirm_mismatch_rolls_back_witness :
    runUpdates [⟨digTFix, digUFix, true, fun _ => .ok []⟩] [tRawFix] [] =
      .error (.confirmFailed digEmptyFix digUFix) ∧
    Apply envU s1Fix db1Fix noFaults =
      (.error (.confirmFailed digEmptyFix digUFix), db1Fix) ∧
    DBDigest (Apply envU s1Fix db1Fix noFaults).2.cat = DBDigest db1Fix.cat :=
  ⟨by
    have h := apply_confirm_mismatch_rolls_back.1
      ⟨digTFix, digUFix, true, fun _ => .ok []⟩ [] [tRawFix] [] (by decide) (by decide)
    simpa using h,
   (apply_confirm_mismatch_rolls_back.2 envU s1Fix db1Fix digUFix 0 digEmptyFix digUFix
      (by decide) (by decide) (by decide) (by decide) (by decide) (by decide)).1,
   (apply_confirm_mismatch_rolls_back.2 envU s1Fix db1Fix digUFix 0 digEmptyFix digUFix
      (by decide) (by decide) (by decide) (by decide) (by decide) (by decide)).2⟩

/-- C2: with a consistent schema, an empty ledger and an essentially
empty database, `Apply` bootstraps by executing Current (whenever
Current's fingerprint differs from the empty schema's, i.e. it creates
anything), appends exactly one history record carrying fingerprint
(Current), and commits; a second `Apply` with the same schema succeeds
without touching the database or the ledger. -/
theorem apply_bootstrap_idempotent (env : Env) (s : Schema) (db : DBData)
    (curHash : String) (created : List RawRow)
    (hCheck : Check env s = .ok ()) (hCur : SQLDigest env s.Current = .ok curHash)
    (hExec : env s.Current = .ok created) (hHist : db.history = [])
    (hEmpty : readSchema db.cat = []) :
    (Apply env s db noFaults).1 = .ok () ∧
    (Apply env s db noFaults).2.history = [⟨curHash, s.Current⟩] ∧
    (schemaDigest [] ≠ curHash → (Apply env s db noFaults).2.cat = db.cat ++ created) ∧
    (schemaDigest [] = curHash → (Apply env s db noFaults).2.cat = db.cat) ∧
    Apply env s (Apply env s db noFaults).2 noFaults =
      (.ok (), (Apply env s db noFaults).2) := by
  obtain ⟨cat, hist⟩ := db
  simp only [] at hHist hEmpty
  subst hHist
  have hCurVal : schemaDigest (readSchema created) = curHash := by
    unfold SQLDigest schemaTextToRows at hCur
    rw [hExec] at hCur
    exact Except.ok.inj hCur
  by_cases hD : schemaDigest [] = curHash
  · have hApply1 : Apply env s ⟨cat, []⟩ noFaults =
        (.ok (), ⟨cat, [⟨curHash, s.Current⟩]⟩) := by
      unfold Apply
      simp only [hCheck, hCur, noFaults, readSchemaLive, takeFault, hEmpty]
      rw [if_neg (not_not_intro hD)]
      rfl
    refine ⟨by rw [hApply1], by rw [hApply1], fun hne => absurd hD hne,
      fun _ => by rw [hApply1], ?_⟩
    rw [hApply1]
    show Apply env s ⟨cat, [⟨curHash, s.Current⟩]⟩ noFaults = _
    unfold Apply
    simp only [hCheck, hCur, noFaults, readSchemaLive, takeFault, hEmpty]
    rw [if_pos hD]
  · have hApply1 : Apply env s ⟨cat, []⟩ noFaults =
        (.ok (), ⟨cat ++ created, [⟨curHash, s.Current⟩]⟩) := by
      unfold Apply
      simp only [hCheck, hCur, noFaults, readSchemaLive, takeFault, hEmpty]
      rw [if_pos hD]
      rw [if_neg (by simp [schemaIsEmpty])]
      simp only [hExec]
      rfl
    refine ⟨by rw [hApply1], by rw [hApply1], fun _ => by rw [hApply1],
      fun hEq => absurd hEq hD, ?_⟩
    rw [hApply1]
    have hRead2 : readSchema (cat ++ created) = readSchema created :=
      readSchema_append_of_left_empty cat created hEmpty
    show Apply env s ⟨cat ++ created, [⟨curHash, s.Current⟩]⟩ noFaults = _
    unfold Apply
    simp only [hCheck, hCur, noFaults, readSchemaLive, takeFault, hRead2, hCurVal]
    simp

/-- C2, witness: bootstrapping an empty database with a one-table schema
and re-applying. -/
theorem apply_bootstrap_idempotent_witness :
    (Apply envT ⟨"CREATE TABLE t (x)", []⟩ ⟨[], []⟩ noFaults).1 = .ok () ∧
    (Apply envT ⟨"CREATE TABLE t (x)", []⟩ ⟨[], []⟩ noFaults).2.history =
      [⟨digTFix, "CREATE TABLE t (x)"⟩] ∧
    (schemaDigest [] ≠ digTFix →
      (Apply envT ⟨"CREATE TABLE t (x)", []⟩ ⟨[], []⟩ noFaults).2.cat = [] ++ [tRawFix]) ∧
    (schemaDigest [] = digTFix →
      (Apply envT ⟨"CREATE TABLE t (x)", []⟩ ⟨[], []⟩ noFaults).2.cat = []) ∧
    Apply envT ⟨"CREATE TABLE t (x)", []⟩
        (Apply envT ⟨"CREATE TABLE t (x)", []⟩ ⟨[], []⟩ noFaults).2 noFaults =
      (.ok (), (Apply envT ⟨"CREATE TABLE t (x)", []⟩ ⟨[], []⟩ noFaults).2) :=
  apply_bootstrap_idempotent envT ⟨"CREATE TABLE t (x)", []⟩ ⟨[], []⟩ digTFix [tRawFix]
    (by decide) (by decide) (by decide) (by decide) (by decide)

/-- C8, counterexample: when the live read inside the essentially-empty
check fails, `Apply` reports the unmanaged-schema error instead of
surfacing the underlying I/O error. -/
theorem apply_io_error_swallowed :
    Apply envT ⟨"CREATE TABLE t (x)", []⟩ ⟨[], []⟩
        ⟨[none, some "disk I/O error"], none⟩ =
      (.error .unmanagedSchema, ⟨[], []⟩) ∧
    ApplyError.unmanagedSchema ≠ ApplyError.digestFailed "disk I/O error" := by
  decide

/-- C8 (amended): the modelled I/O failures of `Apply` are propagated —
a failing first catalog read surfaces as that digest error and a failing
history query as the wrapped history-read error, in both cases leaving
the database unchanged — with one exception: a catalog read failing
inside the essentially-empty check makes `schemaIsEmpty` report false,
so `Apply` returns the unmanaged-schema error instead of the I/O
error. -/
theorem apply_fault_behavior :
    (∀ (env : Env) (s : Schema) (db : DBData) (e : String)
        (rest : List (Option String)) (hR : Option String) (curHash : String),
        Check env s = .ok () → SQLDigest env s.Current = .ok curHash →
        Apply env s db ⟨some e :: rest, hR⟩ = (.error (.digestFailed e), db)) ∧
    (∀ (env : Env) (s : Schema) (db : DBData) (e : String) (curHash : String),
        Check env s = .ok () → SQLDigest env s.Current = .ok curHash →
        Apply env s db ⟨[], some e⟩ = (.error (.historyReadFailed e), db)) ∧
    (∀ (env : Env) (s : Schema) (db : DBData) (e : String) (curHash : String),
        Check env s = .ok () → SQLDigest env s.Current = .ok curHash →
        db.history = [] → DBDigest db.cat ≠ curHash →
        Apply env s db ⟨[none, some e], none⟩ = (.error .unmanagedSchema, db)) := by
  refine ⟨?_, ?_, ?_⟩
  · intro env s db e rest hR curHash hCheck hCur
    unfold Apply
    simp only [hCheck, hCur, readSchemaLive, takeFault]
  · intro env s db e curHash hCheck hCur
    unfold Apply
    simp only [hCheck, hCur, readSchemaLive, takeFault]
  · intro env s db e curHash hCheck hCur hHist hLatest
    obtain ⟨cat, hist⟩ := db
    simp only [] at hHist
    subst hHist
    simp only [DBDigest] at hLatest
    unfold Apply
    simp only [hCheck, hCur, readSchemaLive, takeFault]
    rw [if_pos hLatest]
    rw [if_pos (by simp [schemaIsEmpty])]

/-- C8, witness: concrete propagated faults at the first catalog read
and at the history query. -/
theorem apply_fault_behavior_witness :
    Apply envT ⟨"CREATE TABLE t (x)", []⟩ ⟨[], []⟩ ⟨[some "boom"], none⟩ =
      (.error (.digestFailed "boom"), ⟨[], []⟩) ∧
    Apply envT ⟨"CREATE TABLE t (x)", []⟩ ⟨[], []⟩ ⟨[], some "hist-fail"⟩ =
      (.error (.historyReadFailed "hist-fail"), ⟨[], []⟩) :=
  ⟨apply_fault_behavior.1 envT ⟨"CREATE TABLE t (x)", []⟩ ⟨[], []⟩ "boom" [] none digTFix
      (by decide) (by decide),
   apply_fault_behavior.2.1 envT ⟨"CREATE TABLE t (x)", []⟩ ⟨[], []⟩ "hist-fail" digTFix
      (by decide) (by decide)⟩

end Squibble
